import Mathlib

/-!
Verification of `publications_api/get_citations.py` from the REAL_website
repository.  The script reads an author's scholar link from front-matter,
scrapes the Google Scholar citation table, and splices a generated Markdown
block between two marker comment lines in the author's `_index.md`.

Python strings are modelled as `List Char`; documents are either whole
strings or the line lists produced by Python's `file.readlines`.
-/

set_option autoImplicit false
set_option maxRecDepth 20000

namespace RealWebsite

/-- A Python string, modelled as its list of characters. -/
abbrev PyStr := List Char

/-- Helper for `readlines`: prepend a non-newline character to the first line
of an already-split tail (starting a fresh line when there is none). -/
def consLine (c : Char) : List PyStr → List PyStr
  | [] => [[c]]
  | l :: ls => (c :: l) :: ls

/-- Model of Python `file.readlines` on a text-mode string: splits after each
newline character, keeping every terminating newline; a final chunk with no
terminating newline is returned as an unterminated last line; the empty string
yields no lines. -/
def readlines : PyStr → List PyStr
  | [] => []
  | c :: cs =>
    if c = '\n' then ['\n'] :: readlines cs
    else consLine c (readlines cs)

/-- Model of Python `list.index`: index of the first occurrence, `none` when
the element is absent (where CPython raises `ValueError`). -/
def firstIdx? {α : Type} [DecidableEq α] (a : α) : List α → Option Nat
  | [] => none
  | x :: xs => if x = a then some 0 else (firstIdx? a xs).map (· + 1)

/-- Model of the Python slice `l[:i]` for a possibly negative bound `i`:
a negative bound counts from the end, clamped at zero. -/
def pySliceTo {α : Type} (l : List α) (i : Int) : List α :=
  if 0 ≤ i then l.take i.toNat else l.take (l.length - i.natAbs)

/-- The literal newline-terminated start-marker line searched for by
`clean_index_of_old_pubs` (`get_citations.py`, line 112). -/
def startMarker : PyStr := "<!-- PUBLICATIONS START -->\n".data

/-- The literal newline-terminated end-marker line searched for by
`clean_index_of_old_pubs` (`get_citations.py`, line 113). -/
def endMarker : PyStr := "<!-- PUBLICATIONS END -->\n".data

/-- Line-level model of `clean_index_of_old_pubs` (`get_citations.py`,
lines 102-121): on the `readlines` list it computes the first indices of the
two marker lines and keeps `md[:publication_begins-1] + md[publication_ends+1:]`;
if either `list.index` call raises `ValueError` the `except` branch leaves the
file unchanged. -/
def clean_index_of_old_pubs (md : List PyStr) : List PyStr :=
  match firstIdx? startMarker md, firstIdx? endMarker md with
  | some p, some q => pySliceTo md ((p : Int) - 1) ++ md.drop (q + 1)
  | _, _ => md

/-- `clean_index_of_old_pubs` acting on a whole document string: the file is
read with `readlines`, cleaned, and written back with `writelines`
(concatenation). -/
def cleanStr (doc : PyStr) : PyStr :=
  (clean_index_of_old_pubs (readlines doc)).flatten

/-- The apostrophe character, used in the generated comment line. -/
def apos : Char := Char.ofNat 39

/-- The fixed comment line appended right after the start marker
(`get_citations.py`, line 151). -/
def dontTouchLine : PyStr :=
  "<!-- This content is automatically generated by get_citations.py. Don".data
    ++ [apos] ++ "t touch -->\n".data

/-- One publication record as extracted by `parse_row`:
a dict with keys `title`, `authors`, `year`, all strings. -/
structure Pub where
  title : PyStr
  authors : PyStr
  year : PyStr
deriving DecidableEq, Repr

/-- First output line of `publication_to_md`: a dash, the bold title and
the parenthesised year, newline-terminated. -/
def pubLine1 (p : Pub) : PyStr :=
  "- **".data ++ p.title ++ "** (".data ++ p.year ++ ")\n".data

/-- Second output line of `publication_to_md`: the indented authors line,
newline-terminated. -/
def pubLine2 (p : Pub) : PyStr :=
  "  - ".data ++ p.authors ++ "\n".data

/-- Model of `publication_to_md` (`get_citations.py`, lines 90-100). -/
def publication_to_md (p : Pub) : PyStr :=
  pubLine1 p ++ pubLine2 p

/-- The generated block built in `main` (`get_citations.py`, lines 150-155):
start marker, fixed comment, two blank lines, heading, one rendered pair per
record, end marker. -/
def annex (pubs : List Pub) : PyStr :=
  startMarker ++ dontTouchLine ++ "\n\n## Publications\n".data
    ++ (pubs.map publication_to_md).flatten ++ endMarker

/-- Model of the Python endswith check of `main` line 157: the last
character is a newline. -/
def endsWithNl (s : PyStr) : Bool :=
  s.getLast? = some '\n'

/-- The append step of `main` (`get_citations.py`, lines 157-160): ensure the
old content ends with a newline, then append the annex and one extra `"\n"`. -/
def appendAnnex (old : PyStr) (pubs : List Pub) : PyStr :=
  (if endsWithNl old then old else old ++ ['\n']) ++ annex pubs ++ ['\n']

/-- The full per-author document update performed by `main` when the scholar
link is configured: strip the old block (`clean_index_of_old_pubs`, line 139),
re-read the file (line 147), and append the freshly rendered block
(lines 150-162). -/
def updateDocument (doc : PyStr) (pubs : List Pub) : PyStr :=
  appendAnnex (cleanStr doc) pubs

/-- Model of the dict comprehension over the social-link entries
(`get_citations.py`, lines 34-36), mapping each icon name to its link:
entries are inserted in list order, so a later entry overwrites an earlier
one with the same icon key. -/
def buildDict (ps : List (PyStr × PyStr)) : PyStr → Option PyStr :=
  ps.foldl (fun d kv => fun k => if k = kv.1 then some kv.2 else d k)
    (fun _ => none)

/-- The icon key looked up by `get_scholar_link` (`get_citations.py`, line 37). -/
def gradKey : PyStr := "graduation-cap".data

/-- The placeholder scholar URL treated as not configured
(`get_citations.py`, line 31). -/
def defaultLink : PyStr :=
  "https://scholar.google.co.uk/citations?user=sIwtMXoAAAAJ".data

/-- Model of `get_scholar_link` (`get_citations.py`, lines 23-43), taking the
subject's `social` front-matter list as icon/link pairs: builds the icon
dictionary, returns `None` when the `graduation-cap` key is missing or maps to
the default placeholder link, and the stored link otherwise. -/
def get_scholar_link (social : List (PyStr × PyStr)) : Option PyStr :=
  match buildDict social gradKey with
  | none => none
  | some link => if link = defaultLink then none else some link

/-- One iteration of the author loop in `main` (`get_citations.py`,
lines 133-162) acting on the author's document content, given the fetched
records: the old block is stripped unconditionally (line 139); when
`get_scholar_link` returns `None` the iteration stops there (`continue`,
line 143), otherwise the fresh block is appended. -/
def processAuthor (social : List (PyStr × PyStr)) (doc : PyStr)
    (pubs : List Pub) : PyStr :=
  match get_scholar_link social with
  | none => cleanStr doc
  | some _ => updateDocument doc pubs

/-! ### The HTML side: BeautifulSoup trees and the extractor

`BeautifulSoup` parse trees are modelled as mutually inductive node lists:
a node is either a text string or an element carrying its tag name, its list
of CSS classes (BeautifulSoup represents the multi-valued `class` attribute
as a list of strings), and its children.  No other attribute is consulted by
the script. -/

mutual
inductive Node : Type where
  | text : PyStr → Node
  | elem : PyStr → List PyStr → NodeList → Node
inductive NodeList : Type where
  | nil : NodeList
  | cons : Node → NodeList → NodeList
end

mutual
/-- All matching tags of the subtree rooted at a node, in document order
(the node itself first, then its descendants), as produced by
BeautifulSoup's `find_all`. -/
def findSub (p : Node → Bool) : Node → List Node
  | .text _ => []
  | .elem t cl cs =>
      (if p (.elem t cl cs) then [Node.elem t cl cs] else []) ++ findInList p cs
/-- All matching tags of a forest, in document order. -/
def findInList (p : Node → Bool) : NodeList → List Node
  | .nil => []
  | .cons n ns => findSub p n ++ findInList p ns
end

mutual
/-- BeautifulSoup's `.text` on a tag: the concatenation of all descendant
strings in document order. -/
def textOf : Node → PyStr
  | .text s => s
  | .elem _ _ cs => textOfList cs
/-- Concatenated text of a forest. -/
def textOfList : NodeList → PyStr
  | .nil => []
  | .cons n ns => textOf n ++ textOfList ns
end

/-- The children of a node (a text node has none). -/
def childrenOf : Node → NodeList
  | .text _ => .nil
  | .elem _ _ cs => cs

/-- A BeautifulSoup matcher for a find call with a tag name and a required
CSS class: the tag name of the element equals `name` and `cls` is among its
classes. -/
def matchTagClass (name cls : PyStr) (n : Node) : Bool :=
  match n with
  | .text _ => false
  | .elem t cl _ => t = name ∧ cls ∈ cl

/-- A BeautifulSoup matcher by tag name only, as used by the attribute
shortcuts `tag.div` and `tag.a`. -/
def matchTag (name : PyStr) (n : Node) : Bool :=
  match n with
  | .text _ => false
  | .elem t _ _ => t = name

/-- BeautifulSoup `tag.find(...)` restricted to the descendants of a node:
the first match in document order, `none` when there is none (Python `None`). -/
def findFirst? (p : Node → Bool) (n : Node) : Option Node :=
  (findInList p (childrenOf n)).head?

/-- Model of `parse_row` (`get_citations.py`, lines 58-71).  Each attribute
access on a missing sub-element raises `AttributeError` in Python, modelled
by `none`. -/
def parse_row (tr : Node) : Option Pub :=
  match findFirst? (matchTagClass ("td".data) ("gsc_a_t".data)) tr with
  | none => none
  | some title =>
    match findFirst? (matchTag ("div".data)) title,
          findFirst? (matchTagClass ("td".data) ("gsc_a_y".data)) tr with
    | some authors, some year =>
      match findFirst? (matchTag ("a".data)) title with
      | some link => some ⟨textOf link, textOf authors, textOf year⟩
      | none => none
    | _, _ => none

/-- The row matcher of `get_publications` (`get_citations.py`, line 83):
a table-row tag carrying the scholar citation-row class. -/
def isPubRow : Node → Bool := matchTagClass ("tr".data) ("gsc_a_tr".data)

/-- BeautifulSoup `soup.find_all(..., limit=limit)` on the whole parsed
document (a forest of top-level nodes): all matches in document order, cut
off after `limit` matches when a limit is given. -/
def find_all (p : Node → Bool) (limit : Option Nat) (top : NodeList) :
    List Node :=
  match limit with
  | none => findInList p top
  | some k => (findInList p top).take k

/-- Model of a Python list comprehension `[f(x) for x in l]` over a fallible
`f`: the first failure aborts the whole comprehension. -/
def mapOpt {α β : Type} (f : α → Option β) : List α → Option (List β)
  | [] => some []
  | a :: as =>
    match f a, mapOpt f as with
    | some b, some bs => some (b :: bs)
    | _, _ => none

/-- Model of `get_publications` (`get_citations.py`, lines 73-88) applied to
the parsed page: select the citation rows (bounded by `limit`) and parse each
one. -/
def get_publications (top : NodeList) (limit : Option Nat) :
    Option (List Pub) :=
  mapOpt parse_row (find_all isPubRow limit top)

/-- A single blank line: the one-character newline string. -/
def nl : PyStr := ['\n']

/-- The heading line of the generated block. -/
def headingLine : PyStr := "## Publications\n".data

/-- The rendered lines contributed by the records, two per record. -/
def pubLines (pubs : List Pub) : List PyStr :=
  (pubs.map (fun p => [pubLine1 p, pubLine2 p])).flatten

/-- The generated block as a line list: marker, comment, two blank lines,
heading, two lines per record, end marker. -/
def annexLines (pubs : List Pub) : List PyStr :=
  [startMarker, dontTouchLine, nl, nl, headingLine] ++ pubLines pubs
    ++ [endMarker]

/-- A record none of whose text fields contains a newline character. -/
def nlFree (p : Pub) : Prop :=
  '\n' ∉ p.title ∧ '\n' ∉ p.authors ∧ '\n' ∉ p.year

instance (p : Pub) : Decidable (nlFree p) := by
  unfold nlFree
  infer_instance

/-- The lines strictly between the first start marker and the first end
marker of a document. -/
def blockContent (md : List PyStr) : List PyStr :=
  match firstIdx? startMarker md, firstIdx? endMarker md with
  | some p, some q => (md.take q).drop (p + 1)
  | _, _ => []

/-- A concrete well-formed citation row with the given title, authors and
year, shaped like the Google Scholar table rows that `parse_row` consumes. -/
def sampleRow (t a y : PyStr) : Node :=
  .elem ("tr".data) ["gsc_a_tr".data]
    (.cons (.elem ("td".data) ["gsc_a_t".data]
      (.cons (.elem ("a".data) [] (.cons (.text t) .nil))
      (.cons (.elem ("div".data) [] (.cons (.text a) .nil)) .nil)))
    (.cons (.elem ("td".data) ["gsc_a_y".data] (.cons (.text y) .nil)) .nil))

/-- A concrete parsed page holding two well-formed citation rows. -/
def samplePage : NodeList :=
  .cons (.elem ("table".data) []
    (.cons (sampleRow ("T1".data) ("AA".data) ("2020".data))
    (.cons (sampleRow ("T2".data) ("BB".data) ("2019".data)) .nil))) .nil

/-- The section-6 block literal rendered for the two records
`{title:"A", year:"2020", authors:"X, Y"}` and
`{title:"B", year:"2019", authors:"Z"}`. -/
def c7Block : PyStr :=
  "<!-- PUBLICATIONS START -->\n".data
    ++ "<!-- This content is automatically generated by get_citations.py. Don".data
    ++ [apos]
    ++ "t touch -->\n\n\n## Publications\n- **A** (2020)\n  - X, Y\n".data
    ++ "- **B** (2019)\n  - Z\n<!-- PUBLICATIONS END -->\n".data

/-! ### Lemmas about `readlines` -/

/-- A properly newline-terminated line: a newline-free body followed by one
final newline character. -/
def Terminated (l : PyStr) : Prop :=
  ∃ m, '\n' ∉ m ∧ l = m ++ ['\n']

theorem consLine_ne_nil (c : Char) (ls : List PyStr) : consLine c ls ≠ [] := by
  cases ls <;> simp [consLine]

theorem flatten_consLine (c : Char) (ls : List PyStr) :
    (consLine c ls).flatten = c :: ls.flatten := by
  cases ls <;> simp [consLine]

theorem readlines_ne_nil {s : PyStr} (h : s ≠ []) : readlines s ≠ [] := by
  match s with
  | [] => exact absurd rfl h
  | c :: cs =>
    simp only [readlines]
    split
    · simp
    · exact consLine_ne_nil _ _

theorem flatten_readlines (s : PyStr) : (readlines s).flatten = s := by
  induction s with
  | nil => rfl
  | cons c cs ih =>
    simp only [readlines]
    split
    · rename_i hc
      simp [List.flatten_cons, ih, hc]
    · rw [flatten_consLine, ih]

theorem readlines_nlfree_append (m s : PyStr) (hm : '\n' ∉ m) :
    readlines (m ++ ['\n'] ++ s) = (m ++ ['\n']) :: readlines s := by
  induction m with
  | nil => simp [readlines]
  | cons c cs ih =>
    have hc : ¬c = '\n' := fun h => hm (by simp [h])
    have hcs : '\n' ∉ cs := fun h => hm (List.mem_cons_of_mem _ h)
    have ih2 := ih hcs
    simp only [List.cons_append] at ih2 ⊢
    rw [readlines, if_neg hc, ih2, consLine]

theorem readlines_term_append {l : PyStr} (s : PyStr) (h : Terminated l) :
    readlines (l ++ s) = l :: readlines s := by
  obtain ⟨m, hm, rfl⟩ := h
  exact readlines_nlfree_append m s hm

theorem readlines_terminated {l : PyStr} (h : Terminated l) :
    readlines l = [l] := by
  have h2 := readlines_term_append [] h
  simpa using h2

theorem readlines_append {s : PyStr} (t : PyStr)
    (h : s.getLast? = some '\n') :
    readlines (s ++ t) = readlines s ++ readlines t := by
  induction s with
  | nil => simp at h
  | cons c cs ih =>
    by_cases hcs : cs = []
    · subst hcs
      simp only [List.getLast?_singleton, Option.some.injEq] at h
      subst h
      simp [readlines]
    · have hlast : cs.getLast? = some '\n' := by
        obtain ⟨y, ys, rfl⟩ := List.exists_cons_of_ne_nil hcs
        rwa [List.getLast?_cons_cons] at h
      have ihh := ih hlast
      by_cases hc : c = '\n'
      · subst hc
        show readlines ('\n' :: (cs ++ t)) = readlines ('\n' :: cs) ++ readlines t
        simp [readlines, ihh]
      · obtain ⟨l, ls, hrl⟩ := List.exists_cons_of_ne_nil
          (readlines_ne_nil hcs)
        show readlines (c :: (cs ++ t)) = readlines (c :: cs) ++ readlines t
        simp [readlines, hc, ihh, hrl, consLine]

theorem mem_readlines_terminated {s : PyStr}
    (h : s.getLast? = some '\n') :
    ∀ l ∈ readlines s, Terminated l := by
  induction s with
  | nil => simp [readlines]
  | cons c cs ih =>
    by_cases hcs : cs = []
    · subst hcs
      simp only [List.getLast?_singleton, Option.some.injEq] at h
      subst h
      intro l hl
      simp [readlines] at hl
      exact ⟨[], by simp, by simp [hl]⟩
    · have hlast : cs.getLast? = some '\n' := by
        obtain ⟨y, ys, rfl⟩ := List.exists_cons_of_ne_nil hcs
        rwa [List.getLast?_cons_cons] at h
      have ihh := ih hlast
      by_cases hc : c = '\n'
      · subst hc
        intro l hl
        rw [show readlines ('\n' :: cs) = ['\n'] :: readlines cs from by
          simp [readlines]] at hl
        rcases List.mem_cons.mp hl with rfl | hl
        · exact ⟨[], by simp, by simp⟩
        · exact ihh l hl
      · obtain ⟨l0, ls, hrl⟩ := List.exists_cons_of_ne_nil
          (readlines_ne_nil hcs)
        intro l hl
        rw [show readlines (c :: cs) = (c :: l0) :: ls from by
          simp [readlines, hc, hrl, consLine]] at hl
        rcases List.mem_cons.mp hl with rfl | hl
        · obtain ⟨m, hm, hml⟩ := ihh l0 (by simp [hrl])
          refine ⟨c :: m, ?_, by simp [hml]⟩
          intro hmem
          rcases List.mem_cons.mp hmem with h1 | h1
          · exact hc h1.symm
          · exact hm h1
        · exact ihh l (by rw [hrl]; exact List.mem_cons_of_mem _ hl)

theorem readlines_flatten {ls : List PyStr}
    (h : ∀ l ∈ ls, Terminated l) :
    readlines ls.flatten = ls := by
  induction ls with
  | nil => rfl
  | cons l ls ih =>
    simp only [List.flatten_cons]
    rw [readlines_term_append _ (h l (by simp))]
    rw [ih (fun x hx => h x (by simp [hx]))]

theorem flatten_getLast {ls : List PyStr} {l : PyStr}
    (h : ls.getLast? = some l) (hl : l ≠ []) :
    ls.flatten.getLast? = l.getLast? := by
  induction ls with
  | nil => simp at h
  | cons x xs ih =>
    by_cases hxs : xs = []
    · subst hxs
      simp only [List.getLast?_singleton, Option.some.injEq] at h
      subst h
      simp
    · obtain ⟨y, ys, rfl⟩ := List.exists_cons_of_ne_nil hxs
      rw [List.getLast?_cons_cons] at h
      have ihh := ih h
      simp only [List.flatten_cons] at ihh ⊢
      rw [List.getLast?_append, ihh]
      have hsome : l.getLast?.isSome := List.getLast?_isSome.mpr hl
      obtain ⟨c, hc⟩ := Option.isSome_iff_exists.mp hsome
      rw [hc]
      rfl

/-! ### Lemmas about `firstIdx?` -/

theorem firstIdx?_eq_none {α : Type} [DecidableEq α] (a : α) (l : List α) :
    firstIdx? a l = none ↔ a ∉ l := by
  induction l with
  | nil => simp [firstIdx?]
  | cons x xs ih =>
    simp only [firstIdx?]
    split
    · rename_i h
      subst h
      simp
    · rename_i h
      simp only [Option.map_eq_none', ih, List.mem_cons]
      constructor
      · intro hn hmem
        rcases hmem with rfl | hmem
        · exact h rfl
        · exact hn hmem
      · intro hn hmem
        exact hn (Or.inr hmem)

theorem firstIdx?_decomp {α : Type} [DecidableEq α] {a : α} {l : List α}
    {n : Nat} (h : firstIdx? a l = some n) :
    ∃ u v, l = u ++ a :: v ∧ u.length = n ∧ a ∉ u := by
  induction l generalizing n with
  | nil => simp [firstIdx?] at h
  | cons x xs ih =>
    simp only [firstIdx?] at h
    split at h
    · rename_i hx
      subst hx
      cases h
      exact ⟨[], xs, rfl, rfl, by simp⟩
    · rename_i hx
      obtain ⟨m, hm, hmn⟩ := Option.map_eq_some'.mp h
      obtain ⟨u, v, rfl, hlen, hnm⟩ := ih hm
      refine ⟨x :: u, v, rfl, by simp [hlen, hmn], ?_⟩
      intro hmem
      rcases List.mem_cons.mp hmem with h1 | h1
      · exact hx h1.symm
      · exact hnm h1

theorem firstIdx?_append {α : Type} [DecidableEq α] {a : α} {u : List α}
    (w : List α) (hu : a ∉ u) :
    firstIdx? a (u ++ w) = (firstIdx? a w).map (· + u.length) := by
  induction u with
  | nil => simp [Option.map_id_fun']
  | cons x xs ih =>
    have hx : ¬x = a := fun h => hu (by simp [h])
    have hxs : a ∉ xs := fun h => hu (List.mem_cons_of_mem _ h)
    have hstep : firstIdx? a (x :: (xs ++ w))
        = (firstIdx? a (xs ++ w)).map (· + 1) := by
      show (if x = a then some 0 else (firstIdx? a (xs ++ w)).map (· + 1)) = _
      rw [if_neg hx]
    rw [List.cons_append, hstep, ih hxs]
    cases firstIdx? a w with
    | none => rfl
    | some m =>
      simp only [Option.map_some', Option.some.injEq, List.length_cons]
      omega

theorem firstIdx?_cons_self {α : Type} [DecidableEq α] (a : α)
    (l : List α) : firstIdx? a (a :: l) = some 0 := by
  simp [firstIdx?]

theorem firstIdx?_append_self {α : Type} [DecidableEq α] {a : α}
    {u : List α} (v : List α) (hu : a ∉ u) :
    firstIdx? a (u ++ a :: v) = some u.length := by
  rw [firstIdx?_append _ hu, firstIdx?_cons_self]
  simp

/-! ### Lemmas about `clean_index_of_old_pubs` -/

theorem clean_of_no_start {md : List PyStr} (h : startMarker ∉ md) :
    clean_index_of_old_pubs md = md := by
  unfold clean_index_of_old_pubs
  rw [(firstIdx?_eq_none _ _).mpr h]

theorem clean_of_no_end {md : List PyStr} (h : endMarker ∉ md) :
    clean_index_of_old_pubs md = md := by
  unfold clean_index_of_old_pubs
  rw [(firstIdx?_eq_none _ _).mpr h]
  cases firstIdx? startMarker md <;> rfl

theorem clean_eq_slice {md : List PyStr} {p q : Nat}
    (hp : firstIdx? startMarker md = some p)
    (hq : firstIdx? endMarker md = some q) (h1 : 1 ≤ p) :
    clean_index_of_old_pubs md = md.take (p - 1) ++ md.drop (q + 1) := by
  unfold clean_index_of_old_pubs
  rw [hp, hq]
  simp only [pySliceTo, if_pos (by omega : (0 : Int) ≤ (p : Int) - 1)]
  congr 2
  omega

theorem clean_eq_slice_zero {md : List PyStr} {q : Nat}
    (hp : firstIdx? startMarker md = some 0)
    (hq : firstIdx? endMarker md = some q) :
    clean_index_of_old_pubs md
      = md.take (md.length - 1) ++ md.drop (q + 1) := by
  unfold clean_index_of_old_pubs
  rw [hp, hq]
  norm_num [pySliceTo]

theorem mem_clean {md : List PyStr} {l : PyStr}
    (hl : l ∈ clean_index_of_old_pubs md) : l ∈ md := by
  unfold clean_index_of_old_pubs at hl
  split at hl
  · rcases List.mem_append.mp hl with h1 | h1
    · unfold pySliceTo at h1
      split at h1 <;> exact List.mem_of_mem_take h1
    · exact List.mem_of_mem_drop h1
  · exact hl

/-! ### The annex as a line list -/

theorem terminated_startMarker : Terminated startMarker :=
  ⟨"<!-- PUBLICATIONS START -->".data, by decide, by decide⟩

theorem terminated_endMarker : Terminated endMarker :=
  ⟨"<!-- PUBLICATIONS END -->".data, by decide, by decide⟩

theorem terminated_dontTouchLine : Terminated dontTouchLine :=
  ⟨"<!-- This content is automatically generated by get_citations.py. Don".data
      ++ [apos] ++ "t touch -->".data, by decide, by decide⟩

theorem terminated_nl : Terminated nl := ⟨[], by simp, rfl⟩

theorem terminated_headingLine : Terminated headingLine :=
  ⟨"## Publications".data, by decide, by decide⟩

theorem terminated_pubLine1 {p : Pub} (h : nlFree p) :
    Terminated (pubLine1 p) := by
  refine ⟨"- **".data ++ p.title ++ "** (".data ++ p.year ++ [')'], ?_, ?_⟩
  · intro hmem
    simp only [List.append_assoc, List.mem_append] at hmem
    rcases hmem with h1 | h2 | h3 | h4 | h5
    · exact absurd h1 (by decide)
    · exact h.1 h2
    · exact absurd h3 (by decide)
    · exact h.2.2 h4
    · exact absurd h5 (by decide)
  · have e : (")\n").data = [')'] ++ ['\n'] := by decide
    simp only [pubLine1, e, List.append_assoc]
    rfl

theorem terminated_pubLine2 {p : Pub} (h : nlFree p) :
    Terminated (pubLine2 p) := by
  refine ⟨"  - ".data ++ p.authors, ?_, ?_⟩
  · intro hmem
    rcases List.mem_append.mp hmem with h1 | h2
    · exact absurd h1 (by decide)
    · exact h.2.1 h2
  · simp [pubLine2, List.append_assoc]

theorem pubLine1_ne_markers (p : Pub) :
    pubLine1 p ≠ startMarker ∧ pubLine1 p ≠ endMarker := by
  constructor <;> intro h <;>
  · have h2 := congrArg List.head? h
    rw [show List.head? (pubLine1 p) = some '-' from rfl] at h2
    exact absurd h2 (by decide)

theorem pubLine2_ne_markers (p : Pub) :
    pubLine2 p ≠ startMarker ∧ pubLine2 p ≠ endMarker := by
  constructor <;> intro h <;>
  · have h2 := congrArg List.head? h
    rw [show List.head? (pubLine2 p) = some ' ' from rfl] at h2
    exact absurd h2 (by decide)

theorem start_not_mem_pubLines (pubs : List Pub) :
    startMarker ∉ pubLines pubs := by
  intro h
  simp only [pubLines, List.mem_flatten, List.mem_map] at h
  obtain ⟨l, ⟨p, hp, rfl⟩, hmem⟩ := h
  rcases List.mem_cons.mp hmem with h1 | h1
  · exact (pubLine1_ne_markers p).1 h1.symm
  · rcases List.mem_cons.mp h1 with h2 | h2
    · exact (pubLine2_ne_markers p).1 h2.symm
    · simp at h2

theorem end_not_mem_pubLines (pubs : List Pub) :
    endMarker ∉ pubLines pubs := by
  intro h
  simp only [pubLines, List.mem_flatten, List.mem_map] at h
  obtain ⟨l, ⟨p, hp, rfl⟩, hmem⟩ := h
  rcases List.mem_cons.mp hmem with h1 | h1
  · exact (pubLine1_ne_markers p).2 h1.symm
  · rcases List.mem_cons.mp h1 with h2 | h2
    · exact (pubLine2_ne_markers p).2 h2.symm
    · simp at h2

theorem pubLines_cons (p : Pub) (ps : List Pub) :
    pubLines (p :: ps) = pubLine1 p :: pubLine2 p :: pubLines ps := by
  simp [pubLines]

theorem length_pubLines (pubs : List Pub) :
    (pubLines pubs).length = 2 * pubs.length := by
  induction pubs with
  | nil => rfl
  | cons p ps ih =>
    rw [pubLines_cons]
    simp only [List.length_cons, ih, List.length_cons]
    omega

theorem length_annexLines (pubs : List Pub) :
    (annexLines pubs).length = 6 + 2 * pubs.length := by
  simp [annexLines, length_pubLines]
  omega

theorem readlines_body (pubs : List Pub) (s : PyStr)
    (h : ∀ p ∈ pubs, nlFree p) :
    readlines ((pubs.map publication_to_md).flatten ++ s)
      = pubLines pubs ++ readlines s := by
  induction pubs with
  | nil => simp [pubLines]
  | cons p ps ih =>
    simp only [List.map_cons, List.flatten_cons, publication_to_md,
      List.append_assoc]
    rw [readlines_term_append _ (terminated_pubLine1 (h p (by simp)))]
    rw [readlines_term_append _ (terminated_pubLine2 (h p (by simp)))]
    rw [ih (fun x hx => h x (by simp [hx]))]
    rw [pubLines_cons]
    simp

theorem readlines_annex (pubs : List Pub) (s : PyStr)
    (h : ∀ p ∈ pubs, nlFree p) :
    readlines (annex pubs ++ s) = annexLines pubs ++ readlines s := by
  have e : annex pubs ++ s
      = startMarker ++ (dontTouchLine ++ (nl ++ (nl ++ (headingLine
          ++ ((pubs.map publication_to_md).flatten ++ (endMarker ++ s)))))) := by
    simp only [annex, List.append_assoc]
    rfl
  rw [e]
  rw [readlines_term_append _ terminated_startMarker,
      readlines_term_append _ terminated_dontTouchLine,
      readlines_term_append _ terminated_nl,
      readlines_term_append _ terminated_nl,
      readlines_term_append _ terminated_headingLine]
  rw [readlines_body pubs _ h]
  rw [readlines_term_append _ terminated_endMarker]
  simp [annexLines]

theorem readlines_annex_nl (pubs : List Pub)
    (h : ∀ p ∈ pubs, nlFree p) :
    readlines (annex pubs ++ ['\n']) = annexLines pubs ++ [nl] := by
  rw [readlines_annex pubs _ h]
  rfl

theorem readlines_appendAnnex {old : PyStr} (pubs : List Pub)
    (hfree : ∀ p ∈ pubs, nlFree p) (hnl : endsWithNl old = true) :
    readlines (appendAnnex old pubs)
      = readlines old ++ annexLines pubs ++ [nl] := by
  have hlast : old.getLast? = some '\n' := by
    simpa [endsWithNl] using hnl
  unfold appendAnnex
  rw [if_pos hnl]
  rw [List.append_assoc]
  rw [readlines_append _ hlast]
  rw [readlines_annex_nl pubs hfree]
  simp [List.append_assoc]

theorem readlines_appendAnnex_nil (pubs : List Pub)
    (hfree : ∀ p ∈ pubs, nlFree p) :
    readlines (appendAnnex [] pubs) = [nl] ++ annexLines pubs ++ [nl] := by
  unfold appendAnnex
  rw [if_neg (by decide)]
  simp only [List.nil_append]
  rw [List.append_assoc]
  show readlines (nl ++ (annex pubs ++ ['\n'])) = [nl] ++ annexLines pubs ++ [nl]
  rw [readlines_term_append _ terminated_nl]
  rw [readlines_annex_nl pubs hfree]
  simp

theorem endsWithNl_flatten {ls : List PyStr} (hne : ls ≠ [])
    (hterm : ∀ l ∈ ls, Terminated l) : endsWithNl ls.flatten = true := by
  have hlast : ls.getLast? = some (ls.getLast hne) :=
    List.getLast?_eq_getLast ls hne
  obtain ⟨m, hm, hml⟩ := hterm _ (List.getLast_mem hne)
  have hfl := flatten_getLast hlast (by simp [hml])
  simp only [endsWithNl]
  rw [hfl, hml]
  simp [List.getLast?_concat]

theorem firstIdx?_start_res (X : List PyStr) (pubs : List Pub)
    (hX : startMarker ∉ X) :
    firstIdx? startMarker (X ++ annexLines pubs ++ [nl])
      = some X.length := by
  have e : X ++ annexLines pubs ++ [nl]
      = X ++ startMarker
          :: ([dontTouchLine, nl, nl, headingLine]
              ++ pubLines pubs ++ [endMarker] ++ [nl]) := by
    simp [annexLines]
  rw [e, firstIdx?_append_self _ hX]

theorem firstIdx?_end_res (X : List PyStr) (pubs : List Pub)
    (hX : endMarker ∉ X) :
    firstIdx? endMarker (X ++ annexLines pubs ++ [nl])
      = some (X.length + (5 + 2 * pubs.length)) := by
  have hnot : endMarker
      ∉ X ++ ([startMarker, dontTouchLine, nl, nl, headingLine]
              ++ pubLines pubs) := by
    intro hmem
    rcases List.mem_append.mp hmem with h1 | h1
    · exact hX h1
    rcases List.mem_append.mp h1 with h2 | h2
    · exact absurd h2 (by decide)
    · exact end_not_mem_pubLines pubs h2
  have e : X ++ annexLines pubs ++ [nl]
      = (X ++ ([startMarker, dontTouchLine, nl, nl, headingLine]
              ++ pubLines pubs)) ++ endMarker :: [nl] := by
    simp [annexLines]
  rw [e, firstIdx?_append_self _ hnot]
  simp [length_pubLines]
  omega

theorem count_start_annexLines (pubs : List Pub) :
    List.count startMarker (annexLines pubs) = 1 := by
  have h1 : List.count startMarker
      ([startMarker, dontTouchLine, nl, nl, headingLine] : List PyStr) = 1 := by
    decide
  have h2 : List.count startMarker ([endMarker] : List PyStr) = 0 := by decide
  have h3 : List.count startMarker (pubLines pubs) = 0 :=
    List.count_eq_zero.mpr (start_not_mem_pubLines pubs)
  have e : annexLines pubs
      = [startMarker, dontTouchLine, nl, nl, headingLine]
          ++ (pubLines pubs ++ [endMarker]) := by
    simp [annexLines]
  rw [e, List.count_append, List.count_append, h1, h2, h3]

theorem count_end_annexLines (pubs : List Pub) :
    List.count endMarker (annexLines pubs) = 1 := by
  have h1 : List.count endMarker
      ([startMarker, dontTouchLine, nl, nl, headingLine] : List PyStr) = 0 := by
    decide
  have h2 : List.count endMarker ([endMarker] : List PyStr) = 1 := by decide
  have h3 : List.count endMarker (pubLines pubs) = 0 :=
    List.count_eq_zero.mpr (end_not_mem_pubLines pubs)
  have e : annexLines pubs
      = [startMarker, dontTouchLine, nl, nl, headingLine]
          ++ (pubLines pubs ++ [endMarker]) := by
    simp [annexLines]
  rw [e, List.count_append, List.count_append, h1, h2, h3]

theorem res_block_shape (X : List PyStr) (pubs : List Pub)
    (hXs : startMarker ∉ X) (hXe : endMarker ∉ X) :
    List.count startMarker (X ++ annexLines pubs ++ [nl]) = 1
  ∧ List.count endMarker (X ++ annexLines pubs ++ [nl]) = 1
  ∧ firstIdx? startMarker (X ++ annexLines pubs ++ [nl]) = some X.length
  ∧ firstIdx? endMarker (X ++ annexLines pubs ++ [nl])
      = some (X.length + (5 + 2 * pubs.length))
  ∧ blockContent (X ++ annexLines pubs ++ [nl])
      = [dontTouchLine, nl, nl, headingLine] ++ pubLines pubs := by
  have hs := firstIdx?_start_res X pubs hXs
  have he := firstIdx?_end_res X pubs hXe
  refine ⟨?_, ?_, hs, he, ?_⟩
  · rw [List.count_append, List.count_append,
      List.count_eq_zero.mpr hXs, count_start_annexLines]
    decide
  · rw [List.count_append, List.count_append,
      List.count_eq_zero.mpr hXe, count_end_annexLines]
    decide
  · unfold blockContent
    rw [hs, he]
    rw [List.append_assoc]
    show List.drop (X.length + 1)
        (List.take (X.length + (5 + 2 * pubs.length))
          (X ++ (annexLines pubs ++ [nl])))
      = [dontTouchLine, nl, nl, headingLine] ++ pubLines pubs
    rw [List.take_append]
    rw [List.take_append_of_le_length
      (by simp [length_annexLines] : 5 + 2 * pubs.length ≤ (annexLines pubs).length)]
    have e5 : annexLines pubs
        = ([startMarker, dontTouchLine, nl, nl, headingLine]
            ++ pubLines pubs) ++ [endMarker] := by
      simp [annexLines]
    have hlen2 : (5 + 2 * pubs.length : Nat)
        = ([startMarker, dontTouchLine, nl, nl, headingLine]
            ++ pubLines pubs).length := by
      simp [length_pubLines]
      omega
    rw [e5, hlen2, List.take_left]
    rw [List.drop_append 1]
    rfl

theorem no_marker_in_clean {md : List PyStr} {p q : Nat}
    (hp : firstIdx? startMarker md = some p)
    (hq : firstIdx? endMarker md = some q)
    (hcS : List.count startMarker md ≤ 1)
    (hcE : List.count endMarker md ≤ 1)
    (h1 : 1 ≤ p) (hlt : p < q) :
    startMarker ∉ clean_index_of_old_pubs md
  ∧ endMarker ∉ clean_index_of_old_pubs md := by
  obtain ⟨u, v, hmd, hul, hSu⟩ := firstIdx?_decomp hp
  obtain ⟨u2, v2, hmd2, hul2, hEu2⟩ := firstIdx?_decomp hq
  have hSv : startMarker ∉ v := by
    intro hmem
    rw [hmd, List.count_append, List.count_cons_self,
      List.count_eq_zero.mpr hSu] at hcS
    have : 1 ≤ List.count startMarker v := List.one_le_count_iff.mpr hmem
    omega
  have hEv2 : endMarker ∉ v2 := by
    intro hmem
    rw [hmd2, List.count_append, List.count_cons_self,
      List.count_eq_zero.mpr hEu2] at hcE
    have : 1 ≤ List.count endMarker v2 := List.one_le_count_iff.mpr hmem
    omega
  have hdropv : md.drop (p + 1) = v := by
    rw [hmd, ← hul, List.drop_append 1]
    rfl
  have hdropv2 : md.drop (q + 1) = v2 := by
    rw [hmd2, ← hul2, List.drop_append 1]
    rfl
  have hv2v : md.drop (q + 1) = v.drop (q - p) := by
    rw [← hdropv, List.drop_drop]
    congr 1
    omega
  rw [clean_eq_slice hp hq h1]
  constructor <;> intro hmem <;> rcases List.mem_append.mp hmem with h2 | h2
  · have h3 : md.take (p - 1) = u.take (p - 1) := by
      rw [hmd, List.take_append_of_le_length (by omega : p - 1 ≤ u.length)]
    rw [h3] at h2
    exact hSu (List.mem_of_mem_take h2)
  · rw [hv2v] at h2
    exact hSv (List.mem_of_mem_drop h2)
  · have h3 : md.take (p - 1) = u2.take (p - 1) := by
      rw [hmd2, List.take_append_of_le_length (by omega : p - 1 ≤ u2.length)]
    rw [h3] at h2
    exact hEu2 (List.mem_of_mem_take h2)
  · rw [hdropv2] at h2
    exact hEv2 h2

/-! ### Lemmas about the dictionary and the extractor -/

theorem buildDict_step (ps : List (PyStr × PyStr))
    (d0 : PyStr → Option PyStr) (k : PyStr) :
    ps.foldl (fun d kv => fun k2 => if k2 = kv.1 then some kv.2 else d k2)
        d0 k
      = ((ps.reverse.find? (fun kv => decide (kv.1 = k))).map Prod.snd).or
          (d0 k) := by
  induction ps generalizing d0 with
  | nil => simp
  | cons kv ps ih =>
    simp only [List.foldl_cons, List.reverse_cons]
    rw [ih, List.find?_append]
    cases hf : ps.reverse.find? (fun kv2 => decide (kv2.1 = k)) with
    | some kv2 => simp
    | none =>
      by_cases hk : k = kv.1
      · simp [hk, List.find?_cons_of_pos]
      · have hkv : ¬kv.1 = k := fun hh => hk hh.symm
        have hne : ¬(decide (kv.1 = k) = true) := by simpa using hkv
        simp [List.find?_cons_of_neg _ hne, hk, hkv]

theorem buildDict_eq_find (ps : List (PyStr × PyStr)) (k : PyStr) :
    buildDict ps k
      = (ps.reverse.find? (fun kv => decide (kv.1 = k))).map Prod.snd := by
  unfold buildDict
  rw [buildDict_step]
  simp

theorem mapOpt_take {α β : Type} (f : α → Option β) (l : List α)
    (ys : List β) (h : mapOpt f l = some ys) (k : Nat) :
    mapOpt f (l.take k) = some (ys.take k) := by
  induction l generalizing ys k with
  | nil =>
    simp only [mapOpt, Option.some.injEq] at h
    subst h
    simp [mapOpt]
  | cons a as ih =>
    simp only [mapOpt] at h
    cases hfa : f a with
    | none => rw [hfa] at h; cases h
    | some b =>
      rw [hfa] at h
      cases hrest : mapOpt f as with
      | none => rw [hrest] at h; cases h
      | some bs =>
        rw [hrest] at h
        cases h
        cases k with
        | zero => rfl
        | succ k2 =>
          simp only [List.take_succ_cons, mapOpt, hfa, ih bs hrest k2]

theorem mapOpt_length {α β : Type} (f : α → Option β) (l : List α)
    (ys : List β) (h : mapOpt f l = some ys) : ys.length = l.length := by
  induction l generalizing ys with
  | nil =>
    simp only [mapOpt, Option.some.injEq] at h
    subst h
    rfl
  | cons a as ih =>
    simp only [mapOpt] at h
    cases hfa : f a with
    | none => rw [hfa] at h; cases h
    | some b =>
      rw [hfa] at h
      cases hrest : mapOpt f as with
      | none => rw [hrest] at h; cases h
      | some bs =>
        rw [hrest] at h
        cases h
        simp [ih bs hrest]

/-! ### The claims -/

/-- C1 is refuted as stated: for a two-line document (which
contains no generated block at all) and a single record, stripping the
freshly updated document does not give back the original — the last
content line `"b\n"` is eaten, because `main` appends the block without a
blank separator line while `clean_index_of_old_pubs` removes the line
preceding the start marker. -/
theorem C1_counterexample :
    cleanStr (updateDocument ("a\nb\n".data)
        [⟨"A".data, "X".data, "2020".data⟩])
      ≠ "a\nb\n".data := by
  decide

/-- C1 (amended): for every document that contains no marker line, ends in
a blank line, and every non-empty record list whose fields are
newline-free, `stripGeneratedBlock` after `updateDocument` restores the
original document. -/
theorem C1_roundtrip_amended (doc : PyStr) (pubs : List Pub)
    (hne : pubs ≠ [])
    (hS : startMarker ∉ readlines doc)
    (hE : endMarker ∉ readlines doc)
    (hlast : (readlines doc).getLast? = some nl)
    (hfree : ∀ r ∈ pubs, nlFree r) :
    cleanStr (updateDocument doc pubs) = doc := by
  have hLne : readlines doc ≠ [] := by
    intro h
    rw [h] at hlast
    cases hlast
  have hdoc : endsWithNl doc = true := by
    have h1 := flatten_getLast hlast (by decide)
    rw [flatten_readlines] at h1
    simp only [endsWithNl, h1]
    rfl
  have hclean : cleanStr doc = doc := by
    simp only [cleanStr, clean_of_no_start hS, flatten_readlines]
  have hupd : updateDocument doc pubs = appendAnnex doc pubs := by
    simp only [updateDocument, hclean]
  rw [hupd]
  simp only [cleanStr]
  rw [readlines_appendAnnex pubs hfree hdoc]
  have hs := firstIdx?_start_res (readlines doc) pubs hS
  have he := firstIdx?_end_res (readlines doc) pubs hE
  have hn1 : 1 ≤ (readlines doc).length := by
    cases hh : readlines doc with
    | nil => exact absurd hh hLne
    | cons a as => simp
  rw [clean_eq_slice hs he hn1]
  have ht : (readlines doc ++ annexLines pubs ++ [nl]).take
      ((readlines doc).length - 1)
      = (readlines doc).take ((readlines doc).length - 1) := by
    rw [List.append_assoc]
    rw [List.take_append_of_le_length (by omega)]
  have hd : (readlines doc ++ annexLines pubs ++ [nl]).drop
      ((readlines doc).length + (5 + 2 * pubs.length) + 1) = [nl] := by
    have e : (readlines doc).length + (5 + 2 * pubs.length) + 1
        = (readlines doc ++ annexLines pubs).length := by
      simp [length_annexLines]
      omega
    rw [e, List.drop_left]
  rw [ht, hd]
  have hrestore : (readlines doc).take ((readlines doc).length - 1) ++ [nl]
      = readlines doc := by
    have hg : (readlines doc).getLast hLne = nl := by
      have h2 := List.getLast?_eq_getLast (readlines doc) hLne
      rw [hlast] at h2
      exact (Option.some.injEq _ _).mp h2.symm
    rw [← List.dropLast_eq_take, ← hg]
    exact List.dropLast_concat_getLast hLne
  rw [hrestore, flatten_readlines]

/-- Witness for the amended C1 at a document ending in a blank line, with
one record. -/
theorem C1_roundtrip_amended_witness :
    cleanStr (updateDocument ("hello\n\n".data)
        [⟨"A".data, "X".data, "2020".data⟩])
      = "hello\n\n".data :=
  C1_roundtrip_amended _ _ (by decide) (by decide) (by decide) (by decide)
    (by decide)

/-- C2 is refuted as stated: for a subject whose configured link is the
placeholder default, `get_scholar_link` does return `None`, but the
document is not left untouched — `main` runs `clean_index_of_old_pubs`
before checking the link, so a document holding a generated block is
stripped. -/
theorem C2_counterexample :
    get_scholar_link [(gradKey, defaultLink)] = none
  ∧ processAuthor [(gradKey, defaultLink)]
      ("t\n\n<!-- PUBLICATIONS START -->\nold\n<!-- PUBLICATIONS END -->\n".data)
      []
      ≠ "t\n\n<!-- PUBLICATIONS START -->\nold\n<!-- PUBLICATIONS END -->\n".data := by
  decide

/-- C2 (amended): when the configured link equals the placeholder default,
`get_scholar_link` returns `None` and the run applies only the
unconditional strip step to the document — no block is appended — so the
document is unchanged exactly when it contains no start-marker line. -/
theorem C2_skip_amended (social : List (PyStr × PyStr)) (doc : PyStr)
    (pubs : List Pub) (h : buildDict social gradKey = some defaultLink) :
    get_scholar_link social = none
  ∧ processAuthor social doc pubs = cleanStr doc
  ∧ (startMarker ∉ readlines doc → processAuthor social doc pubs = doc) := by
  have hnone : get_scholar_link social = none := by
    unfold get_scholar_link
    rw [h]
    simp
  have hpa : processAuthor social doc pubs = cleanStr doc := by
    unfold processAuthor
    rw [hnone]
  refine ⟨hnone, hpa, ?_⟩
  intro hS
  rw [hpa]
  simp only [cleanStr, clean_of_no_start hS, flatten_readlines]

/-- Witness for the amended C2 at a one-entry social list holding the
default link. -/
theorem C2_skip_amended_witness :
    get_scholar_link [(gradKey, defaultLink)] = none
  ∧ processAuthor [(gradKey, defaultLink)] ("x\n".data) [] = cleanStr ("x\n".data)
  ∧ (startMarker ∉ readlines ("x\n".data) →
      processAuthor [(gradKey, defaultLink)] ("x\n".data) [] = "x\n".data) :=
  C2_skip_amended _ _ _ (by decide)

/-- C3: when both marker lines occur, the start marker not first and before
the end marker, and a blank line precedes the start marker, the strip
removes exactly that blank line through the end marker inclusive and keeps
every other line; when either marker is absent the document is returned
unchanged. -/
theorem C3_strip_spec (md : List PyStr) :
    (∀ p q, firstIdx? startMarker md = some p →
        firstIdx? endMarker md = some q →
        1 ≤ p → p < q → md[p - 1]? = some nl →
        clean_index_of_old_pubs md = md.take (p - 1) ++ md.drop (q + 1))
  ∧ ((firstIdx? startMarker md = none ∨ firstIdx? endMarker md = none) →
      clean_index_of_old_pubs md = md) := by
  constructor
  · intro p q hp hq h1 _ _
    exact clean_eq_slice hp hq h1
  · intro h
    rcases h with h | h
    · exact clean_of_no_start ((firstIdx?_eq_none _ _).mp h)
    · exact clean_of_no_end ((firstIdx?_eq_none _ _).mp h)

/-- Witness for C3: a five-line document with a blank separator before the
block is stripped to its surrounding lines, and a document lacking the end
marker is returned unchanged. -/
theorem C3_strip_spec_witness :
    clean_index_of_old_pubs
        ["a\n".data, nl, startMarker, "x\n".data, endMarker, "b\n".data]
      = ["a\n".data, nl, startMarker, "x\n".data, endMarker, "b\n".data].take 1
        ++ ["a\n".data, nl, startMarker, "x\n".data, endMarker,
            "b\n".data].drop 5
  ∧ clean_index_of_old_pubs ["a\n".data, startMarker]
      = ["a\n".data, startMarker] := by
  constructor
  · exact (C3_strip_spec _).1 2 4 (by decide) (by decide) (by decide)
      (by decide) (by decide)
  · exact (C3_strip_spec _).2 (Or.inr (by decide))

/-- C4 is refuted as stated: `stripGeneratedBlock` is not idempotent; on a
document holding two generated blocks one strip leaves the second block
and a second strip removes it. -/
theorem C4_counterexample :
    clean_index_of_old_pubs (clean_index_of_old_pubs
        ["a\n".data, startMarker, endMarker, "b\n".data, startMarker,
          endMarker])
      ≠ clean_index_of_old_pubs
        ["a\n".data, startMarker, endMarker, "b\n".data, startMarker,
          endMarker] := by
  decide

/-- C4 (amended): the strip is idempotent on documents holding at most one
occurrence of each marker line in which, when both occur, the start marker
is not the very first line and precedes the end marker. -/
theorem C4_idempotent_amended (md : List PyStr)
    (hcS : List.count startMarker md ≤ 1)
    (hcE : List.count endMarker md ≤ 1)
    (hord : ∀ p q, firstIdx? startMarker md = some p →
        firstIdx? endMarker md = some q → 1 ≤ p ∧ p < q) :
    clean_index_of_old_pubs (clean_index_of_old_pubs md)
      = clean_index_of_old_pubs md := by
  cases hs : firstIdx? startMarker md with
  | none => simp only [clean_of_no_start ((firstIdx?_eq_none _ _).mp hs)]
  | some p =>
    cases he : firstIdx? endMarker md with
    | none => simp only [clean_of_no_end ((firstIdx?_eq_none _ _).mp he)]
    | some q =>
      obtain ⟨h1, hlt⟩ := hord p q hs he
      exact clean_of_no_start (no_marker_in_clean hs he hcS hcE h1 hlt).1

/-- Witness for the amended C4 at a document holding one proper block. -/
theorem C4_idempotent_amended_witness :
    clean_index_of_old_pubs (clean_index_of_old_pubs
        ["a\n".data, nl, startMarker, "x\n".data, endMarker])
      = clean_index_of_old_pubs
        ["a\n".data, nl, startMarker, "x\n".data, endMarker] :=
  C4_idempotent_amended _ (by decide) (by decide)
    (by
      intro p q hp hq
      have e1 : firstIdx? startMarker
          ["a\n".data, nl, startMarker, "x\n".data, endMarker]
          = some 2 := by decide
      have e2 : firstIdx? endMarker
          ["a\n".data, nl, startMarker, "x\n".data, endMarker]
          = some 4 := by decide
      rw [e1] at hp
      rw [e2] at hq
      injection hp with hp
      injection hq with hq
      omega)

/-- C5: `get_scholar_link` builds the icon dictionary with last write
winning on duplicate icon names, returns `None` exactly when the
`graduation-cap` key is absent or maps to the placeholder default, and
returns the stored URL otherwise. -/
theorem C5_get_scholar_link_spec (social : List (PyStr × PyStr)) :
    (∀ k, buildDict social k
        = (social.reverse.find? (fun kv => decide (kv.1 = k))).map Prod.snd)
  ∧ (get_scholar_link social = none
      ↔ buildDict social gradKey = none
        ∨ buildDict social gradKey = some defaultLink)
  ∧ (∀ url, get_scholar_link social = some url
      ↔ buildDict social gradKey = some url ∧ url ≠ defaultLink) := by
  refine ⟨fun k => buildDict_eq_find social k, ?_, ?_⟩
  · unfold get_scholar_link
    cases h : buildDict social gradKey with
    | none => simp
    | some link =>
      by_cases hd : link = defaultLink
      · subst hd
        simp
      · simp [hd]
  · intro url
    unfold get_scholar_link
    cases h : buildDict social gradKey with
    | none => simp
    | some link =>
      by_cases hd : link = defaultLink
      · subst hd
        show (if defaultLink = defaultLink then (none : Option PyStr)
              else some defaultLink) = some url
          ↔ some defaultLink = some url ∧ url ≠ defaultLink
        rw [if_pos rfl]
        constructor
        · intro h2
          exact absurd h2 (by simp)
        · rintro ⟨h2, h3⟩
          injection h2 with h2
          exact absurd h2.symm h3
      · show (if link = defaultLink then (none : Option PyStr)
              else some link) = some url
          ↔ some link = some url ∧ url ≠ defaultLink
        rw [if_neg hd]
        constructor
        · intro h2
          injection h2 with h2
          subst h2
          exact ⟨rfl, hd⟩
        · rintro ⟨h2, h3⟩
          exact h2

/-- C6: on a page whose citation rows are all well-formed, a limit `k`
smaller than the number of rows yields exactly `k` parsed records, the
first `k` in document order. -/
theorem C6_extract_limit (top : NodeList) (k : Nat) (ps : List Pub)
    (hall : mapOpt parse_row (findInList isPubRow top) = some ps)
    (hk : k < (findInList isPubRow top).length) :
    get_publications top (some k) = some (ps.take k)
  ∧ (ps.take k).length = k := by
  have hlen := mapOpt_length _ _ _ hall
  constructor
  · show mapOpt parse_row ((findInList isPubRow top).take k)
        = some (ps.take k)
    exact mapOpt_take _ _ _ hall k
  · rw [List.length_take]
    omega

/-- Witness for C6 at the concrete two-row page with limit 1. -/
theorem C6_extract_limit_witness :
    get_publications samplePage (some 1)
      = some ([(⟨"T1".data, "AA".data, "2020".data⟩ : Pub),
          ⟨"T2".data, "BB".data, "2019".data⟩].take 1)
  ∧ (([(⟨"T1".data, "AA".data, "2020".data⟩ : Pub),
        ⟨"T2".data, "BB".data, "2019".data⟩]).take 1).length = 1 :=
  C6_extract_limit samplePage 1
    [⟨"T1".data, "AA".data, "2020".data⟩, ⟨"T2".data, "BB".data, "2019".data⟩]
    (by decide) (by decide)

/-- C7: for a document with no marker line and no trailing newline, the
update with the two scenario records produces exactly the original text,
one newline, the section-6 block literal, and one trailing blank line. -/
theorem C7_append_scenario (social : List (PyStr × PyStr)) (doc url : PyStr)
    (hlink : get_scholar_link social = some url)
    (hS : startMarker ∉ readlines doc)
    (hnl : endsWithNl doc = false) :
    processAuthor social doc
        [⟨"A".data, "X, Y".data, "2020".data⟩,
          ⟨"B".data, "Z".data, "2019".data⟩]
      = doc ++ "\n".data ++ c7Block ++ "\n".data := by
  have hannex : annex
      [⟨"A".data, "X, Y".data, "2020".data⟩,
        ⟨"B".data, "Z".data, "2019".data⟩] = c7Block := by
    decide
  have hpa : processAuthor social doc
      [⟨"A".data, "X, Y".data, "2020".data⟩,
        ⟨"B".data, "Z".data, "2019".data⟩]
      = updateDocument doc
          [⟨"A".data, "X, Y".data, "2020".data⟩,
            ⟨"B".data, "Z".data, "2019".data⟩] := by
    unfold processAuthor
    rw [hlink]
  rw [hpa]
  unfold updateDocument
  simp only [cleanStr, clean_of_no_start hS, flatten_readlines]
  unfold appendAnnex
  rw [if_neg (by simp [hnl]), hannex]

/-- Witness for C7 at a five-character document and a customized link. -/
theorem C7_append_scenario_witness :
    processAuthor
        [(gradKey, "https://scholar.google.com/citations?user=abc".data)]
        ("hello".data)
        [⟨"A".data, "X, Y".data, "2020".data⟩,
          ⟨"B".data, "Z".data, "2019".data⟩]
      = "hello".data ++ "\n".data ++ c7Block ++ "\n".data :=
  C7_append_scenario
    [(gradKey, "https://scholar.google.com/citations?user=abc".data)]
    ("hello".data)
    ("https://scholar.google.com/citations?user=abc".data)
    (by decide) (by decide) (by decide)

/-- C8: updating a document that holds exactly one prior generated block
(start marker not first, before the end marker) leaves exactly one
generated block, whose content is the comment line, two blank lines, the
heading, and exactly the newly fetched records. -/
theorem C8_single_block (social : List (PyStr × PyStr)) (url doc : PyStr)
    (pubs : List Pub) (p q : Nat)
    (hlink : get_scholar_link social = some url)
    (hfree : ∀ r ∈ pubs, nlFree r)
    (hnl : endsWithNl doc = true)
    (hp : firstIdx? startMarker (readlines doc) = some p)
    (hq : firstIdx? endMarker (readlines doc) = some q)
    (hcS : List.count startMarker (readlines doc) = 1)
    (hcE : List.count endMarker (readlines doc) = 1)
    (h1 : 1 ≤ p) (hlt : p < q) :
    List.count startMarker (readlines (processAuthor social doc pubs)) = 1
  ∧ List.count endMarker (readlines (processAuthor social doc pubs)) = 1
  ∧ (∃ ps qs,
      firstIdx? startMarker (readlines (processAuthor social doc pubs))
          = some ps
      ∧ firstIdx? endMarker (readlines (processAuthor social doc pubs))
          = some qs
      ∧ ps < qs)
  ∧ blockContent (readlines (processAuthor social doc pubs))
      = [dontTouchLine, nl, nl, headingLine] ++ pubLines pubs := by
  have hpa : processAuthor social doc pubs
      = appendAnnex (cleanStr doc) pubs := by
    unfold processAuthor
    rw [hlink]
    rfl
  have hno := no_marker_in_clean hp hq (le_of_eq hcS) (le_of_eq hcE) h1 hlt
  have hterm : ∀ l ∈ readlines doc, Terminated l :=
    mem_readlines_terminated (by simpa [endsWithNl] using hnl)
  have htermc : ∀ l ∈ clean_index_of_old_pubs (readlines doc),
      Terminated l :=
    fun l hl => hterm l (mem_clean hl)
  by_cases hcnil : clean_index_of_old_pubs (readlines doc) = []
  · have hcs : cleanStr doc = [] := by
      simp only [cleanStr, hcnil]
      rfl
    have hres : readlines (processAuthor social doc pubs)
        = [nl] ++ annexLines pubs ++ [nl] := by
      rw [hpa, hcs, readlines_appendAnnex_nil pubs hfree]
    obtain ⟨c1, c2, f1, f2, bc⟩ :=
      res_block_shape [nl] pubs (by decide) (by decide)
    rw [hres]
    exact ⟨c1, c2, ⟨_, _, f1, f2, by omega⟩, bc⟩
  · have hewn : endsWithNl (cleanStr doc) = true := by
      simp only [cleanStr]
      exact endsWithNl_flatten hcnil htermc
    have hrl : readlines (cleanStr doc)
        = clean_index_of_old_pubs (readlines doc) := by
      simp only [cleanStr]
      exact readlines_flatten htermc
    have hres : readlines (processAuthor social doc pubs)
        = clean_index_of_old_pubs (readlines doc)
            ++ annexLines pubs ++ [nl] := by
      rw [hpa, readlines_appendAnnex pubs hfree hewn, hrl]
    obtain ⟨c1, c2, f1, f2, bc⟩ :=
      res_block_shape (clean_index_of_old_pubs (readlines doc)) pubs
        hno.1 hno.2
    rw [hres]
    exact ⟨c1, c2, ⟨_, _, f1, f2, by omega⟩, bc⟩

/-- Witness for C8 at a document holding one prior block and one fresh
record. -/
theorem C8_single_block_witness :
    List.count startMarker (readlines (processAuthor
        [(gradKey, "https://scholar.google.com/citations?user=abc".data)]
        ("t\n\n<!-- PUBLICATIONS START -->\nold\n<!-- PUBLICATIONS END -->\n".data)
        [⟨"A".data, "X".data, "2020".data⟩])) = 1
  ∧ List.count endMarker (readlines (processAuthor
        [(gradKey, "https://scholar.google.com/citations?user=abc".data)]
        ("t\n\n<!-- PUBLICATIONS START -->\nold\n<!-- PUBLICATIONS END -->\n".data)
        [⟨"A".data, "X".data, "2020".data⟩])) = 1
  ∧ (∃ ps qs,
      firstIdx? startMarker (readlines (processAuthor
          [(gradKey, "https://scholar.google.com/citations?user=abc".data)]
          ("t\n\n<!-- PUBLICATIONS START -->\nold\n<!-- PUBLICATIONS END -->\n".data)
          [⟨"A".data, "X".data, "2020".data⟩])) = some ps
      ∧ firstIdx? endMarker (readlines (processAuthor
          [(gradKey, "https://scholar.google.com/citations?user=abc".data)]
          ("t\n\n<!-- PUBLICATIONS START -->\nold\n<!-- PUBLICATIONS END -->\n".data)
          [⟨"A".data, "X".data, "2020".data⟩])) = some qs
      ∧ ps < qs)
  ∧ blockContent (readlines (processAuthor
        [(gradKey, "https://scholar.google.com/citations?user=abc".data)]
        ("t\n\n<!-- PUBLICATIONS START -->\nold\n<!-- PUBLICATIONS END -->\n".data)
        [⟨"A".data, "X".data, "2020".data⟩]))
      = [dontTouchLine, nl, nl, headingLine]
          ++ pubLines [⟨"A".data, "X".data, "2020".data⟩] :=
  C8_single_block
    [(gradKey, "https://scholar.google.com/citations?user=abc".data)]
    ("https://scholar.google.com/citations?user=abc".data)
    ("t\n\n<!-- PUBLICATIONS START -->\nold\n<!-- PUBLICATIONS END -->\n".data)
    [⟨"A".data, "X".data, "2020".data⟩] 2 4 (by decide) (by decide)
    (by decide) (by decide) (by decide) (by decide) (by decide) (by decide)
    (by decide)

/-- C9: a marker is recognised only as the exact line text followed by a
newline; a final line holding the marker text without a trailing newline,
or a line with surrounding text, is not a marker, and such documents are
left unchanged. -/
theorem C9_exact_match (md : List PyStr) :
    (startMarker ∉ md → clean_index_of_old_pubs md = md)
  ∧ readlines
        ("a\n<!-- PUBLICATIONS END -->\n<!-- PUBLICATIONS START -->".data)
      = ["a\n".data, endMarker, "<!-- PUBLICATIONS START -->".data]
  ∧ startMarker
      ∉ readlines
          ("a\n<!-- PUBLICATIONS END -->\n<!-- PUBLICATIONS START -->".data)
  ∧ cleanStr
        ("a\n<!-- PUBLICATIONS END -->\n<!-- PUBLICATIONS START -->".data)
      = "a\n<!-- PUBLICATIONS END -->\n<!-- PUBLICATIONS START -->".data
  ∧ startMarker
      ∉ readlines
          ("x <!-- PUBLICATIONS START -->\ny\n<!-- PUBLICATIONS END -->\n".data)
  ∧ cleanStr
        ("x <!-- PUBLICATIONS START -->\ny\n<!-- PUBLICATIONS END -->\n".data)
      = "x <!-- PUBLICATIONS START -->\ny\n<!-- PUBLICATIONS END -->\n".data := by
  refine ⟨fun h => clean_of_no_start h, by decide, by decide, by decide,
    by decide, by decide⟩

/-- Witness for C9 applying the no-marker branch at a concrete document. -/
theorem C9_exact_match_witness :
    clean_index_of_old_pubs ["hello\n".data, endMarker]
      = ["hello\n".data, endMarker] :=
  (C9_exact_match ["hello\n".data, endMarker]).1 (by decide)

/-- C10: when the start marker is the very first line and the end marker
occurs later, the strip keeps all lines but the last concatenated with the
lines after the end marker, so the start marker is not removed. -/
theorem C10_start_first_line (md : List PyStr) (q : Nat)
    (hp : firstIdx? startMarker md = some 0)
    (hq : firstIdx? endMarker md = some q) :
    clean_index_of_old_pubs md
      = md.take (md.length - 1) ++ md.drop (q + 1)
  ∧ startMarker ∈ clean_index_of_old_pubs md := by
  have heq := clean_eq_slice_zero hp hq
  refine ⟨heq, ?_⟩
  rw [heq]
  obtain ⟨u, v, hmd, hul, hSu⟩ := firstIdx?_decomp hp
  have hu : u = [] := List.length_eq_zero.mp hul
  subst hu
  simp only [List.nil_append] at hmd
  obtain ⟨u2, v2, hmd2, hul2, hE2⟩ := firstIdx?_decomp hq
  have hq1 : 1 ≤ q := by
    rcases Nat.eq_zero_or_pos q with h0 | h0
    · subst h0
      have hu2 : u2 = [] := List.length_eq_zero.mp hul2
      subst hu2
      simp only [List.nil_append] at hmd2
      rw [hmd] at hmd2
      have hse : startMarker = endMarker := by
        have h3 := congrArg List.head? hmd2
        simpa using h3
      exact absurd hse (by decide)
    · exact h0
  have hlen : 2 ≤ md.length := by
    rw [hmd2]
    simp
    omega
  apply List.mem_append.mpr
  left
  have hlen2 : 0 < md.length - 1 := by omega
  rw [hmd] at hlen2 ⊢
  rw [List.take_cons hlen2]
  exact List.mem_cons_self _ _

/-- Witness for C10 at a four-line document whose start marker opens the
file; the strip duplicates the line after the end marker. -/
theorem C10_start_first_line_witness :
    (clean_index_of_old_pubs [startMarker, endMarker, "x\n".data, "y\n".data]
        = [startMarker, endMarker, "x\n".data, "y\n".data].take 3
          ++ [startMarker, endMarker, "x\n".data, "y\n".data].drop 2
      ∧ startMarker
          ∈ clean_index_of_old_pubs
              [startMarker, endMarker, "x\n".data, "y\n".data])
  ∧ clean_index_of_old_pubs [startMarker, endMarker, "x\n".data, "y\n".data]
      = [startMarker, endMarker, "x\n".data, "x\n".data, "y\n".data] := by
  refine ⟨?_, by decide⟩
  exact C10_start_first_line [startMarker, endMarker, "x\n".data, "y\n".data]
    1 (by decide) (by decide)

end RealWebsite
